import Mathlib

/-!
Verification development for the `aiida-raspa` calculation plugin
(`aiida_raspa/calculations/__init__.py`).

The Python module defines two things:

* `RaspaInput`, whose `render` / `_render_section` methods serialize a nested
  parameter dictionary into the RASPA text input format, destructively popping
  keys while traversing; and
* `RaspaCalculation._verify_inlinks` / `_prepare_for_submission`, which
  classify the heterogeneous input nodes, write the rendered text to
  `simulation.input` in a staging folder, and assemble a `CalcInfo` staging
  descriptor.

Python dictionaries are modelled as insertion-ordered association lists with
(for representable dicts) unique keys.  `dict.pop` is modelled by
`getOpt`/`eraseKey`, Python exceptions by an explicit `PrepError` sum carried
in `Except`, and the staging folder by an explicit record threaded through
`prepareForSubmission` so that "which files exist when an error is raised" is
expressible.
-/

set_option maxHeartbeats 1000000

namespace AiidaRaspa

/-- A value stored in a parameter dictionary: the scalar types the renderer
dispatches on (`int`, `str`, `bool`), nested dictionaries and lists.
Python dicts are insertion-ordered association lists here. -/
inductive Value where
  | int (n : Int)
  | str (s : String)
  | bool (b : Bool)
  | dict (entries : List (String × Value))
  | list (items : List Value)

abbrev Entries := List (String × Value)

/-- `d.get(k)` on an association list: first entry with key `k`, if any. -/
def getOpt {α : Type} (k : String) : List (String × α) → Option α
  | [] => none
  | (k₂, v) :: rest => if k₂ = k then some v else getOpt k rest

/-- Removal of the (first) entry with key `k`; on a dict (unique keys) this is
exactly the removal performed by `d.pop(k)`. -/
def eraseKey {α : Type} (k : String) : List (String × α) → List (String × α)
  | [] => []
  | (k₂, v) :: rest => if k₂ = k then rest else (k₂, v) :: eraseKey k rest

/-- `d.pop(k, dflt)`: the removed value (or the default) together with the
remaining dict. -/
def popDefault (k : String) (dflt : Value) (es : Entries) : Value × Entries :=
  match getOpt k es with
  | some v => (v, eraseKey k es)
  | none => (dflt, es)

/-- Python `str()` as applied by the renderer's `%s` formatting.  The
renderer only ever applies it to scalars in practice (header tags, molecule
names and scalar line values); the `repr` text Python would print for a
container is abstracted by a fixed marker, which no claim exercises. -/
def Value.pyStr : Value → String
  | .int n => toString n
  | .str s => s
  | .bool b => if b then "True" else "False"
  | .dict _ => "<dict>"
  | .list _ => "<list>"

/-- `' ' * indent`. -/
def indentStr (n : Nat) : String := String.mk (List.replicate n ' ')

/-- Lexicographic comparison of character sequences by code point, the order
Python uses when comparing strings. -/
def charsLe : List Char → List Char → Bool
  | [], _ => true
  | _ :: _, [] => false
  | c :: cs, d :: ds =>
    if c.toNat < d.toNat then true
    else if d.toNat < c.toNat then false
    else charsLe cs ds

/-- Python string comparison `a <= b`. -/
def strLe (a b : String) : Prop := charsLe a.data b.data = true

instance : DecidableRel strLe := fun a b => inferInstanceAs (Decidable (_ = true))

theorem charsLe_total (a b : List Char) : charsLe a b = true ∨ charsLe b a = true := by
  induction a generalizing b with
  | nil => left; rfl
  | cons c cs ih =>
    cases b with
    | nil => right; rfl
    | cons d ds =>
      rcases Nat.lt_trichotomy c.toNat d.toNat with h | h | h
      · left; simp [charsLe, h]
      · rcases ih ds with h₂ | h₂
        · left; simp [charsLe, h, h₂]
        · right; simp [charsLe, h.symm, h₂]
      · right; simp [charsLe, h]

theorem charsLe_trans {a b c : List Char} (h₁ : charsLe a b = true)
    (h₂ : charsLe b c = true) : charsLe a c = true := by
  induction a generalizing b c with
  | nil => rfl
  | cons x xs ih =>
    cases b with
    | nil => simp [charsLe] at h₁
    | cons y ys =>
      cases c with
      | nil => simp [charsLe] at h₂
      | cons z zs =>
        simp only [charsLe] at h₁ h₂ ⊢
        rcases Nat.lt_trichotomy x.toNat y.toNat with hxy | hxy | hxy
        · rcases Nat.lt_trichotomy y.toNat z.toNat with hyz | hyz | hyz
          · simp [show x.toNat < z.toNat from by omega]
          · simp [show x.toNat < z.toNat from by omega]
          · simp [show ¬ y.toNat < z.toNat from by omega,
              show z.toNat < y.toNat from by omega] at h₂
        · rcases Nat.lt_trichotomy y.toNat z.toNat with hyz | hyz | hyz
          · simp [show x.toNat < z.toNat from by omega]
          · simp only [show ¬ x.toNat < y.toNat from by omega,
              show ¬ y.toNat < x.toNat from by omega, if_false, ite_false,
              if_neg (by omega : ¬ x.toNat < y.toNat)] at h₁
            simp only [if_neg (by omega : ¬ y.toNat < z.toNat),
              if_neg (by omega : ¬ z.toNat < y.toNat)] at h₂
            simp only [if_neg (by omega : ¬ x.toNat < z.toNat),
              if_neg (by omega : ¬ z.toNat < x.toNat)]
            exact ih h₁ h₂
          · simp [show ¬ y.toNat < z.toNat from by omega,
              show z.toNat < y.toNat from by omega] at h₂
        · simp [show ¬ x.toNat < y.toNat from by omega,
            show y.toNat < x.toNat from by omega] at h₁

theorem charsLe_antisymm {a b : List Char} (h₁ : charsLe a b = true)
    (h₂ : charsLe b a = true) : a = b := by
  induction a generalizing b with
  | nil =>
    cases b with
    | nil => rfl
    | cons d ds => simp [charsLe] at h₂
  | cons x xs ih =>
    cases b with
    | nil => simp [charsLe] at h₁
    | cons y ys =>
      simp only [charsLe] at h₁ h₂
      rcases Nat.lt_trichotomy x.toNat y.toNat with hxy | hxy | hxy
      · simp [show ¬ y.toNat < x.toNat from by omega, hxy] at h₂
      · have hx : x = y := Char.ext (UInt32.ext hxy)
        subst hx
        simp only [if_neg (by omega : ¬ x.toNat < x.toNat)] at h₁ h₂
        rw [ih h₁ h₂]
      · simp [show ¬ x.toNat < y.toNat from by omega, hxy] at h₁

theorem strLe_antisymm {a b : String} (h₁ : strLe a b) (h₂ : strLe b a) : a = b := by
  cases a
  cases b
  exact congrArg String.mk (charsLe_antisymm h₁ h₂)

/-- The comparison used by `sorted(params.items())`: Python compares the
`(key, value)` tuples, but on a dict the keys are unique so the comparison
never reaches the values; ordering by key is exact. -/
def entryLE (p q : String × Value) : Prop := strLe p.1 q.1

instance : DecidableRel entryLE := fun p q => inferInstanceAs (Decidable (strLe p.1 q.1))

instance : IsTotal (String × Value) entryLE := ⟨fun a b => charsLe_total a.1.data b.1.data⟩

instance : IsTrans (String × Value) entryLE := ⟨fun _ _ _ h₁ h₂ => charsLe_trans h₁ h₂⟩

/-- `sorted(params.items())`. -/
def sortEntries (es : Entries) : Entries := es.insertionSort entryLE

theorem sortEntries_perm (es : Entries) : List.Perm (sortEntries es) es :=
  List.perm_insertionSort entryLE es

theorem sortEntries_sorted (es : Entries) : (sortEntries es).Sorted entryLE :=
  List.sorted_insertionSort entryLE es

theorem sizeOf_perm_eq {α : Type} [SizeOf α] {l₁ l₂ : List α} (h : List.Perm l₁ l₂) :
    sizeOf l₁ = sizeOf l₂ := by
  induction h with
  | nil => rfl
  | cons x _ ih => simp [ih]
  | swap x y l => simp; omega
  | trans _ _ ih₁ ih₂ => exact ih₁.trans ih₂

theorem sizeOf_eraseKey_le {α : Type} [SizeOf α] (k : String) (es : List (String × α)) :
    sizeOf (eraseKey k es) ≤ sizeOf es := by
  induction es with
  | nil => simp [eraseKey]
  | cons p rest ih =>
    obtain ⟨k₂, v⟩ := p
    by_cases h : k₂ = k
    · simp [eraseKey, h]
      try omega
    · simp [eraseKey, h]
      try omega

theorem sizeOf_popDefault_snd (k : String) (dflt : Value) (es : Entries) :
    sizeOf (popDefault k dflt es).2 ≤ sizeOf es := by
  unfold popDefault
  cases getOpt k es with
  | none => simp
  | some v => simpa using sizeOf_eraseKey_le k es

theorem sizeOf_sortEntries (es : Entries) : sizeOf (sortEntries es) = sizeOf es :=
  sizeOf_perm_eq (sortEntries_perm es)

mutual

/-- One `(key, val)` iteration of `RaspaInput._render_section`: the emitted
lines together with the value as the traversal leaves it (the pops on nested
dicts mutate them in place).  Dict case: pop `'_'` and `'MoleculeName'`
(defaults `''`), emit the unindented header `'%s %s %s %s' % (key, tag,
'MoleculeName', name)`, recurse into the remaining entries in sorted order
with `indent + 3`.  List case: each item is rendered via
`_render_section(output, {key: item}, indent)` at the same indent.  Bool
case: `.true.` / `.false.` literals.  Otherwise the scalar line
`'%s%s  %s' % (' '*indent, key, val)`. -/
def renderVal (key : String) (indent : Nat) : Value → List String × Value
  | .dict es =>
    ((key ++ " " ++ (popDefault "_" (.str "") es).1.pyStr ++ " " ++ "MoleculeName" ++ " " ++
        (popDefault "MoleculeName" (.str "") (popDefault "_" (.str "") es).2).1.pyStr) ::
      entriesLines (indent + 3)
        (sortEntries (popDefault "MoleculeName" (.str "") (popDefault "_" (.str "") es).2).2),
     .dict (entriesMut (indent + 3)
        (popDefault "MoleculeName" (.str "") (popDefault "_" (.str "") es).2).2))
  | .list items =>
    (itemsLines key indent items, .list (itemsMut key indent items))
  | .bool b =>
    ([indentStr indent ++ key ++ "  " ++ (if b then ".true." else ".false.")], .bool b)
  | .int n => ([indentStr indent ++ key ++ "  " ++ (Value.int n).pyStr], .int n)
  | .str s => ([indentStr indent ++ key ++ "  " ++ (Value.str s).pyStr], .str s)
termination_by v => sizeOf v
decreasing_by
  all_goals simp
  all_goals
    have h₁ := sizeOf_popDefault_snd "MoleculeName" (.str "")
      (popDefault "_" (.str "") es).2
    have h₂ := sizeOf_popDefault_snd "_" (.str "") es
    first
      | (have h₃ := sizeOf_sortEntries
          (popDefault "MoleculeName" (.str "") (popDefault "_" (.str "") es).2).2
         omega)
      | omega

/-- The lines emitted by the `for key, val in sorted(params.items())` loop,
applied to an already-sorted entry list. -/
def entriesLines (indent : Nat) : Entries → List String
  | [] => []
  | (k, v) :: rest => (renderVal k indent v).1 ++ entriesLines indent rest
termination_by es => sizeOf es
decreasing_by
  all_goals simp
  all_goals omega

/-- The entry list after the loop's in-place mutation of its values: keys and
insertion order are untouched at this level, each value is replaced by its
post-traversal form. -/
def entriesMut (indent : Nat) : Entries → Entries
  | [] => []
  | (k, v) :: rest => (k, (renderVal k indent v).2) :: entriesMut indent rest
termination_by es => sizeOf es
decreasing_by
  all_goals simp
  all_goals omega

/-- The `for listitem in val: self._render_section(output, {key: listitem},
indent)` loop: emitted lines. -/
def itemsLines (key : String) (indent : Nat) : List Value → List String
  | [] => []
  | v :: vs => (renderVal key indent v).1 ++ itemsLines key indent vs
termination_by vs => sizeOf vs
decreasing_by
  all_goals simp
  all_goals omega

/-- The same loop's in-place mutation of the list items. -/
def itemsMut (key : String) (indent : Nat) : List Value → List Value
  | [] => []
  | v :: vs => (renderVal key indent v).2 :: itemsMut key indent vs
termination_by vs => sizeOf vs
decreasing_by
  all_goals simp
  all_goals omega

end

/-- `RaspaInput._render_section(output, params, indent)` as a function from
the section to the appended lines and the mutated section: lines follow the
sorted key order, the dict itself keeps insertion order with mutated
values. -/
def renderSection (params : Entries) (indent : Nat) : List String × Entries :=
  (entriesLines indent (sortEntries params), entriesMut indent params)

/-- Errors a preparation run can raise: Python `KeyError` (from `dict.pop`
with no default), `aiida`'s `InputValidationError` with its message, and
`TypeError`/`AttributeError` from applying dict/list operations to a value of
the wrong type. -/
inductive PrepError where
  | keyError (key : String)
  | inputValidationError (msg : String)
  | typeError
deriving DecidableEq

/-- `RaspaInput.render`: start from the banner line, `pop("GeneralSettings")`
(KeyError if absent; `.items()` fails if it is not a dict) and render it at
indent 0, `pop("Component")` (KeyError if absent) and render the singleton
dict `{"Component": val}`, join with newlines.  Returns the text together
with the mutated top-level dict. -/
def render (params : Entries) : Except PrepError (String × Entries) :=
  match getOpt "GeneralSettings" params with
  | none => .error (.keyError "GeneralSettings")
  | some gs =>
    match gs with
    | .dict ges =>
      match getOpt "Component" (eraseKey "GeneralSettings" params) with
      | none => .error (.keyError "Component")
      | some comp =>
        .ok (String.intercalate "\n"
              (["!!! Generated by AiiDA !!!"] ++
               (renderSection ges 0).1 ++
               (renderSection [("Component", comp)] 0).1),
             eraseKey "Component" (eraseKey "GeneralSettings" params))
    | _ => .error .typeError

/-!  Fuel-indexed mirror of the renderer.

The five `render*` functions above are compiled by well-founded recursion and
therefore do not reduce inside the kernel, which blocks `rfl`/`decide` on
closed instances.  The `*O` family below is the same algorithm made
structurally recursive on an explicit fuel argument, returning `none` when
the fuel runs out; `renderO_bridge` proves that whenever the fueled run
succeeds it agrees with the well-founded definitions, so closed instances of
`render` can be evaluated by running `renderO` with enough fuel. -/

mutual

def renderValO : Nat → String → Nat → Value → Option (List String × Value)
  | 0, _, _, _ => none
  | fuel+1, key, indent, .dict es =>
    match entriesLinesO fuel (indent + 3)
            (sortEntries (popDefault "MoleculeName" (.str "") (popDefault "_" (.str "") es).2).2),
          entriesMutO fuel (indent + 3)
            (popDefault "MoleculeName" (.str "") (popDefault "_" (.str "") es).2).2 with
    | some bl, some bm =>
      some ((key ++ " " ++ (popDefault "_" (.str "") es).1.pyStr ++ " " ++ "MoleculeName" ++ " " ++
              (popDefault "MoleculeName" (.str "") (popDefault "_" (.str "") es).2).1.pyStr) :: bl,
            .dict bm)
    | _, _ => none
  | fuel+1, key, indent, .list items =>
    match itemsLinesO fuel key indent items, itemsMutO fuel key indent items with
    | some a, some b => some (a, .list b)
    | _, _ => none
  | _+1, key, indent, .bool b =>
    some ([indentStr indent ++ key ++ "  " ++ (if b then ".true." else ".false.")], .bool b)
  | _+1, key, indent, .int n =>
    some ([indentStr indent ++ key ++ "  " ++ (Value.int n).pyStr], .int n)
  | _+1, key, indent, .str s =>
    some ([indentStr indent ++ key ++ "  " ++ (Value.str s).pyStr], .str s)

def entriesLinesO : Nat → Nat → Entries → Option (List String)
  | 0, _, _ => none
  | _+1, _, [] => some []
  | fuel+1, indent, (k, v) :: rest =>
    match renderValO fuel k indent v, entriesLinesO fuel indent rest with
    | some a, some b => some (a.1 ++ b)
    | _, _ => none

def entriesMutO : Nat → Nat → Entries → Option Entries
  | 0, _, _ => none
  | _+1, _, [] => some []
  | fuel+1, indent, (k, v) :: rest =>
    match renderValO fuel k indent v, entriesMutO fuel indent rest with
    | some a, some b => some ((k, a.2) :: b)
    | _, _ => none

def itemsLinesO : Nat → String → Nat → List Value → Option (List String)
  | 0, _, _, _ => none
  | _+1, _, _, [] => some []
  | fuel+1, key, indent, v :: vs =>
    match renderValO fuel key indent v, itemsLinesO fuel key indent vs with
    | some a, some b => some (a.1 ++ b)
    | _, _ => none

def itemsMutO : Nat → String → Nat → List Value → Option (List Value)
  | 0, _, _, _ => none
  | _+1, _, _, [] => some []
  | fuel+1, key, indent, v :: vs =>
    match renderValO fuel key indent v, itemsMutO fuel key indent vs with
    | some a, some b => some (a.2 :: b)
    | _, _ => none

end

def renderO (fuel : Nat) (params : Entries) : Option (Except PrepError (String × Entries)) :=
  match getOpt "GeneralSettings" params with
  | none => some (.error (.keyError "GeneralSettings"))
  | some (.dict ges) =>
    match getOpt "Component" (eraseKey "GeneralSettings" params) with
    | none => some (.error (.keyError "Component"))
    | some comp =>
      match entriesLinesO fuel 0 (sortEntries ges),
            entriesLinesO fuel 0 (sortEntries [("Component", comp)]) with
      | some l₁, some l₂ =>
        some (.ok (String.intercalate "\n" (["!!! Generated by AiiDA !!!"] ++ l₁ ++ l₂),
              eraseKey "Component" (eraseKey "GeneralSettings" params)))
      | _, _ => none
  | some _ => some (.error .typeError)

theorem renderO_bridge : ∀ fuel : Nat,
    (∀ key indent v r, renderValO fuel key indent v = some r → renderVal key indent v = r) ∧
    (∀ indent es r, entriesLinesO fuel indent es = some r → entriesLines indent es = r) ∧
    (∀ indent es r, entriesMutO fuel indent es = some r → entriesMut indent es = r) ∧
    (∀ key indent vs r, itemsLinesO fuel key indent vs = some r → itemsLines key indent vs = r) ∧
    (∀ key indent vs r, itemsMutO fuel key indent vs = some r → itemsMut key indent vs = r) := by
  intro fuel
  induction fuel with
  | zero =>
    refine ⟨fun key indent v r h => ?_, fun indent es r h => ?_, fun indent es r h => ?_,
            fun key indent vs r h => ?_, fun key indent vs r h => ?_⟩ <;>
      simp [renderValO, entriesLinesO, entriesMutO, itemsLinesO, itemsMutO] at h
  | succ n ih =>
    obtain ⟨ihv, ihel, ihem, ihil, ihim⟩ := ih
    refine ⟨fun key indent v r h => ?_, fun indent es r h => ?_, fun indent es r h => ?_,
            fun key indent vs r h => ?_, fun key indent vs r h => ?_⟩
    · cases v with
      | dict es =>
        rw [renderValO] at h
        cases hl : entriesLinesO n (indent + 3)
            (sortEntries (popDefault "MoleculeName" (.str "") (popDefault "_" (.str "") es).2).2) with
        | none => rw [hl] at h; simp at h
        | some bl =>
          cases hm : entriesMutO n (indent + 3)
              (popDefault "MoleculeName" (.str "") (popDefault "_" (.str "") es).2).2 with
          | none => rw [hl, hm] at h; simp at h
          | some bm =>
            rw [hl, hm] at h
            simp at h
            rw [renderVal, ihel _ _ _ hl, ihem _ _ _ hm, ← h]
      | list items =>
        rw [renderValO] at h
        cases ha : itemsLinesO n key indent items with
        | none => rw [ha] at h; simp at h
        | some a =>
          cases hb : itemsMutO n key indent items with
          | none => rw [ha, hb] at h; simp at h
          | some b =>
            rw [ha, hb] at h
            simp at h
            rw [renderVal, ihil _ _ _ _ ha, ihim _ _ _ _ hb, ← h]
      | bool b =>
        rw [renderValO] at h
        simp at h
        rw [renderVal, ← h]
      | int m =>
        rw [renderValO] at h
        simp at h
        rw [renderVal, ← h]
      | str s =>
        rw [renderValO] at h
        simp at h
        rw [renderVal, ← h]
    · cases es with
      | nil =>
        rw [entriesLinesO] at h
        simp at h
        rw [entriesLines, ← h]
      | cons p rest =>
        obtain ⟨k, v⟩ := p
        rw [entriesLinesO] at h
        cases ha : renderValO n k indent v with
        | none => rw [ha] at h; simp at h
        | some a =>
          cases hb : entriesLinesO n indent rest with
          | none => rw [ha, hb] at h; simp at h
          | some b =>
            rw [ha, hb] at h
            simp at h
            rw [entriesLines, ihv _ _ _ _ ha, ihel _ _ _ hb, ← h]
    · cases es with
      | nil =>
        rw [entriesMutO] at h
        simp at h
        rw [entriesMut, ← h]
      | cons p rest =>
        obtain ⟨k, v⟩ := p
        rw [entriesMutO] at h
        cases ha : renderValO n k indent v with
        | none => rw [ha] at h; simp at h
        | some a =>
          cases hb : entriesMutO n indent rest with
          | none => rw [ha, hb] at h; simp at h
          | some b =>
            rw [ha, hb] at h
            simp at h
            rw [entriesMut, ihv _ _ _ _ ha, ihem _ _ _ hb, ← h]
    · cases vs with
      | nil =>
        rw [itemsLinesO] at h
        simp at h
        rw [itemsLines, ← h]
      | cons v rest =>
        rw [itemsLinesO] at h
        cases ha : renderValO n key indent v with
        | none => rw [ha] at h; simp at h
        | some a =>
          cases hb : itemsLinesO n key indent rest with
          | none => rw [ha, hb] at h; simp at h
          | some b =>
            rw [ha, hb] at h
            simp at h
            rw [itemsLines, ihv _ _ _ _ ha, ihil _ _ _ _ hb, ← h]
    · cases vs with
      | nil =>
        rw [itemsMutO] at h
        simp at h
        rw [itemsMut, ← h]
      | cons v rest =>
        rw [itemsMutO] at h
        cases ha : renderValO n key indent v with
        | none => rw [ha] at h; simp at h
        | some a =>
          cases hb : itemsMutO n key indent rest with
          | none => rw [ha, hb] at h; simp at h
          | some b =>
            rw [ha, hb] at h
            simp at h
            rw [itemsMut, ihv _ _ _ _ ha, ihim _ _ _ _ hb, ← h]

theorem render_of_renderO (fuel : Nat) (params : Entries)
    (r : Except PrepError (String × Entries)) (h : renderO fuel params = some r) :
    render params = r := by
  cases hgs : getOpt "GeneralSettings" params with
  | none =>
    simp only [renderO, hgs] at h
    simp at h
    simp only [render, hgs, ← h]
  | some gs =>
    cases gs with
    | dict ges =>
      cases hc : getOpt "Component" (eraseKey "GeneralSettings" params) with
      | none =>
        simp only [renderO, hgs, hc] at h
        simp at h
        simp only [render, hgs, hc, ← h]
      | some comp =>
        simp only [renderO, hgs, hc] at h
        cases h₁ : entriesLinesO fuel 0 (sortEntries ges) with
        | none => rw [h₁] at h; simp at h
        | some l₁ =>
          cases h₂ : entriesLinesO fuel 0 (sortEntries [("Component", comp)]) with
          | none => rw [h₁, h₂] at h; simp at h
          | some l₂ =>
            rw [h₁, h₂] at h
            simp at h
            simp only [render, hgs, hc, ← h]
            have hb := renderO_bridge fuel
            rw [renderSection, renderSection, hb.2.1 _ _ _ h₁, hb.2.1 _ _ _ h₂]
            simp
    | int m =>
      simp only [renderO, hgs] at h
      simp at h
      simp only [render, hgs, ← h]
    | str s =>
      simp only [renderO, hgs] at h
      simp at h
      simp only [render, hgs, ← h]
    | bool b =>
      simp only [renderO, hgs] at h
      simp at h
      simp only [render, hgs, ← h]
    | list items =>
      simp only [renderO, hgs] at h
      simp at h
      simp only [render, hgs, ← h]

/-!  Input classification and job preparation
(`RaspaCalculation._verify_inlinks` / `_prepare_for_submission`). -/

/-- The kinds of aiida node that can appear in `inputdict`, as far as the
`isinstance` checks of `_verify_inlinks` distinguish them.  `parameterData`
carries `get_dict()`, `singlefileData` carries `get_file_abs_path()` and
`filename`, `code` carries its `uuid`. -/
inductive Node where
  | parameterData (d : Entries)
  | structureData
  | remoteData
  | singlefileData (abspath : String) (filename : String)
  | code (uuid : String)

def isSinglefile : Node → Bool
  | .singlefileData _ _ => true
  | _ => false

/-- Python 2 `str(d.keys())` for the error message listing leftover input
role names: a bracketed, comma-separated, quoted list. -/
def pyKeysStr (ks : List String) : String :=
  "[" ++ String.intercalate ", " (ks.map fun k => "\x27" ++ k ++ "\x27") ++ "]"

/-- `RaspaCalculation._verify_inlinks`: pop `parameters` (mandatory
ParameterData), `structure` (optional StructureData), `code` (mandatory, any
node), `settings` (optional ParameterData, defaulting to an empty one); then
reclassify every remaining SinglefileData entry, in mapping order, into the
local-copy list; any still-remaining entry is an error listing all leftover
names at once. -/
def verifyInlinks (inputdict : List (String × Node)) :
    Except PrepError (Entries × Option Node × Node × Entries × List (String × String)) := do
  let params ← match getOpt "parameters" inputdict with
    | none => throw (.inputValidationError "No parameters specified")
    | some (.parameterData d) => pure d
    | some _ => throw (.inputValidationError "parameters type not ParameterData")
  let d₁ := eraseKey "parameters" inputdict
  let structureNode ← match getOpt "structure" d₁ with
    | none => pure none
    | some .structureData => pure (some Node.structureData)
    | some _ => throw (.inputValidationError "structure type not StructureData")
  let d₂ := eraseKey "structure" d₁
  let codeNode ← match getOpt "code" d₂ with
    | none => throw (.inputValidationError "No code specified")
    | some c => pure c
  let d₃ := eraseKey "code" d₂
  let settings ← match getOpt "settings" d₃ with
    | none => pure ([] : Entries)
    | some (.parameterData d) => pure d
    | some _ => throw (.inputValidationError "settings type not ParameterData")
  let d₄ := eraseKey "settings" d₃
  let localCopyList := (d₄.filter fun p => isSinglefile p.2).map fun p =>
    match p.2 with
    | .singlefileData abspath filename => (abspath, filename)
    | _ => ("", "")
  let leftover := d₄.filter fun p => !isSinglefile p.2
  if leftover.isEmpty then
    pure (params, structureNode, codeNode, settings, localCopyList)
  else
    throw (.inputValidationError
      ("unrecognized input nodes: " ++ pyKeysStr (leftover.map Prod.fst)))

/-- The staging folder: file name to file content. -/
structure Folder where
  files : List (String × String)

/-- Create or truncate-and-rewrite a file. -/
def Folder.setFile (folder : Folder) (name content : String) : Folder :=
  if (folder.files.map Prod.fst).contains name then
    ⟨folder.files.map fun p => if p.1 = name then (name, content) else p⟩
  else
    ⟨folder.files ++ [(name, content)]⟩

structure CodeInfo where
  cmdlineParams : List Value
  codeNode : Node

/-- The staging descriptor assembled by `_prepare_for_submission`
(`code_uuid` is abstracted by keeping the code node itself; every aiida node
exposes a uuid). -/
structure CalcInfo where
  stdinName : String
  uuid : String
  cmdlineParams : List Value
  codesInfo : List CodeInfo
  remoteSymlinkList : List (String × String)
  localCopyList : List (String × String)
  remoteCopyList : List (String × String)
  retrieveList : List Value

/-- The rest of `_prepare_for_submission` once the rendered text is in hand:
write it, assemble `CodeInfo`/`CalcInfo`, pop the two recognized settings
directives, and raise on any leftover settings key. -/
def prepareWrite (pk : Nat) (selfUuid : String) (folder : Folder) (text : String)
    (codeNode : Node) (settings : Entries)
    (localCopyList : List (String × String)) : Folder × Except PrepError CalcInfo :=
  let folder := folder.setFile "simulation.input" text
  match popDefault "cmdline" (.list []) settings with
  | (.list cmdline₀, settings) =>
    let cmdline := cmdline₀ ++ [Value.str "simulation.input"]
    let codeinfo : CodeInfo := { cmdlineParams := cmdline, codeNode := codeNode }
    match popDefault "additional_retrieve_list" (.list []) settings with
    | (.list additional, settings) =>
      let retrieveList :=
        [Value.list [.str "Output/System*/*dat", .str ".", .int 0]] ++ additional
      if settings.isEmpty then
        (folder, .ok
          { stdinName := "simulation.input"
            uuid := selfUuid
            cmdlineParams := cmdline
            codesInfo := [codeinfo]
            remoteSymlinkList := []
            localCopyList := localCopyList
            remoteCopyList := []
            retrieveList := retrieveList })
      else
        (folder, .error (.inputValidationError
          ("The following keys have been found in the settings input node " ++
           toString pk ++ ", but were not understood: " ++
           String.intercalate "," (settings.map Prod.fst))))
    | (_, _) => (folder, .error .typeError)
  | (_, _) => (folder, .error .typeError)

/-- The tail of `_prepare_for_submission` after `_verify_inlinks` succeeds.
`with open(inp_fn, "w") as f: f.write(inp.render())` first creates/truncates
`simulation.input`, then evaluates `render()` (whose exception would leave
the empty file behind) and writes the text.  Afterwards `cmdline` and
`additional_retrieve_list` are popped from the settings (`+=` on a non-list
raises a TypeError), and any key still left in the settings raises an
`InputValidationError` naming them all — after the input file was written. -/
def prepareAfterVerify (pk : Nat) (selfUuid : String) (folder : Folder)
    (params : Entries) (codeNode : Node) (settings : Entries)
    (localCopyList : List (String × String)) : Folder × Except PrepError CalcInfo :=
  let folder := folder.setFile "simulation.input" ""
  match render params with
  | .error e => (folder, .error e)
  | .ok (text, _) => prepareWrite pk selfUuid folder text codeNode settings localCopyList

/-- `RaspaCalculation._prepare_for_submission(tempfolder, inputdict)`;
`pk`/`selfUuid` stand for the calculation node identity used in the error
message and the CalcInfo.  Returns the staging folder as it stands when the
call returns or raises, together with the result. -/
def prepareForSubmission (pk : Nat) (selfUuid : String) (folder : Folder)
    (inputdict : List (String × Node)) : Folder × Except PrepError CalcInfo :=
  match verifyInlinks inputdict with
  | .error e => (folder, .error e)
  | .ok (params, _structureNode, codeNode, settings, localCopyList) =>
    prepareAfterVerify pk selfUuid folder params codeNode settings localCopyList

def exceptIsOk {α : Type} : Except PrepError α → Bool
  | .ok _ => true
  | .error _ => false

def PrepError.isInputValidation : PrepError → Bool
  | .inputValidationError _ => true
  | _ => false

/-!  The post-state of the destructive traversal, phrased the way the
specification describes it, and the proof that the renderer's actual
post-state coincides with it. -/

theorem Value.sizeOf_pos (v : Value) : 0 < sizeOf v := by
  cases v <;> simp <;> omega

theorem List.sizeOf_pos' {α : Type} [SizeOf α] (l : List α) : 0 < sizeOf l := by
  cases l <;> simp <;> omega

theorem getOpt_none_eraseKey {α : Type} {k : String} {l : List (String × α)}
    (h : getOpt k l = none) : eraseKey k l = l := by
  induction l with
  | nil => rfl
  | cons p rest ih =>
    obtain ⟨k₂, v⟩ := p
    by_cases hk : k₂ = k
    · simp [getOpt, hk] at h
    · simp [getOpt, hk] at h
      simp [eraseKey, hk, ih h]

theorem popDefault_snd (k : String) (dflt : Value) (es : Entries) :
    (popDefault k dflt es).2 = eraseKey k es := by
  unfold popDefault
  cases h : getOpt k es with
  | none => simp [getOpt_none_eraseKey h]
  | some v => rfl

theorem getOpt_eraseKey_of_ne {α : Type} {k₁ k₂ : String} (hk : k₁ ≠ k₂)
    (l : List (String × α)) : getOpt k₁ (eraseKey k₂ l) = getOpt k₁ l := by
  induction l with
  | nil => rfl
  | cons p rest ih =>
    obtain ⟨k, v⟩ := p
    by_cases h : k = k₂
    · subst h
      have hne : ¬ (k = k₁) := fun hh => hk hh.symm
      simp [eraseKey, getOpt, hne]
    · simp only [eraseKey, if_neg h, getOpt]
      split
      · rfl
      · exact ih

mutual

/-- The mutation the claim attributes to the traversal: from every rendered
Section remove exactly the reserved keys, first `'_'` then `'MoleculeName'`,
and leave every other key in place (recursing into nested values); scalars
are untouched. -/
def removeReservedVal : Value → Value
  | .dict es => .dict (removeReservedEntries (eraseKey "MoleculeName" (eraseKey "_" es)))
  | .list items => .list (removeReservedItems items)
  | .bool b => .bool b
  | .int n => .int n
  | .str s => .str s
termination_by v => sizeOf v
decreasing_by
  all_goals simp
  all_goals
    first
      | (have h₁ := sizeOf_eraseKey_le (α := Value) "MoleculeName" (eraseKey "_" es)
         have h₂ := sizeOf_eraseKey_le (α := Value) "_" es
         omega)
      | omega

def removeReservedEntries : Entries → Entries
  | [] => []
  | (k, v) :: rest => (k, removeReservedVal v) :: removeReservedEntries rest
termination_by es => sizeOf es
decreasing_by
  all_goals simp
  all_goals omega

def removeReservedItems : List Value → List Value
  | [] => []
  | v :: vs => removeReservedVal v :: removeReservedItems vs
termination_by vs => sizeOf vs
decreasing_by
  all_goals simp
  all_goals omega

end

theorem removeReservedEntries_keys (es : Entries) :
    (removeReservedEntries es).map Prod.fst = es.map Prod.fst := by
  induction es with
  | nil => simp [removeReservedEntries]
  | cons p rest ih =>
    obtain ⟨k, v⟩ := p
    simp [removeReservedEntries, ih]

theorem renderMut_spec : ∀ n : Nat,
    (∀ v, sizeOf v ≤ n → ∀ k i, (renderVal k i v).2 = removeReservedVal v) ∧
    (∀ es, sizeOf es ≤ n → ∀ i, entriesMut i es = removeReservedEntries es) ∧
    (∀ vs, sizeOf vs ≤ n → ∀ k i, itemsMut k i vs = removeReservedItems vs) := by
  intro n
  induction n with
  | zero =>
    refine ⟨fun v h => ?_, fun es h => ?_, fun vs h => ?_⟩
    · exact absurd h (by have := Value.sizeOf_pos v; omega)
    · exact absurd h (by have := List.sizeOf_pos' es; omega)
    · exact absurd h (by have := List.sizeOf_pos' vs; omega)
  | succ n ih =>
    obtain ⟨ihv, ihe, ihi⟩ := ih
    refine ⟨fun v h k i => ?_, fun es h i => ?_, fun vs h k i => ?_⟩
    · cases v with
      | dict es =>
        have hes : sizeOf es ≤ n := by simp at h; omega
        have h₁ := sizeOf_eraseKey_le (α := Value) "_" es
        have h₂ := sizeOf_eraseKey_le (α := Value) "MoleculeName" (eraseKey "_" es)
        rw [renderVal, removeReservedVal]
        simp only [popDefault_snd]
        rw [ihe _ (by omega) _]
      | list items =>
        have : sizeOf items ≤ n := by simp at h; omega
        rw [renderVal, removeReservedVal]
        simp only []
        rw [ihi _ this _ _]
      | bool b => rw [renderVal, removeReservedVal]
      | int m => rw [renderVal, removeReservedVal]
      | str s => rw [renderVal, removeReservedVal]
    · cases es with
      | nil => rw [entriesMut, removeReservedEntries]
      | cons p rest =>
        obtain ⟨k, v⟩ := p
        have hv : sizeOf v ≤ n := by simp at h; omega
        have hr : sizeOf rest ≤ n := by simp at h; omega
        rw [entriesMut, removeReservedEntries, ihv _ hv _ _, ihe _ hr _]
    · cases vs with
      | nil => rw [itemsMut, removeReservedItems]
      | cons v rest =>
        have hv : sizeOf v ≤ n := by simp at h; omega
        have hr : sizeOf rest ≤ n := by simp at h; omega
        rw [itemsMut, removeReservedItems, ihv _ hv _ _, ihi _ hr _ _]

/-!  Sorted association lists with distinct keys are canonical: two
permutations of the same entries sort identically. -/

theorem sorted_nodupkeys_eq {l₁ l₂ : Entries} (hp : List.Perm l₁ l₂)
    (h₁ : l₁.Sorted entryLE) (h₂ : l₂.Sorted entryLE)
    (hnd : (l₁.map Prod.fst).Nodup) : l₁ = l₂ := by
  induction l₁ generalizing l₂ with
  | nil => exact (List.Perm.eq_nil hp.symm).symm
  | cons a t ih =>
    cases l₂ with
    | nil => exact absurd (List.Perm.eq_nil hp) (by simp)
    | cons b t₂ =>
      have hab : a = b := by
        by_contra hne
        have ha2 : a ∈ b :: t₂ := hp.mem_iff.mp (List.mem_cons_self a t)
        have hb1 : b ∈ a :: t := hp.mem_iff.mpr (List.mem_cons_self b t₂)
        have ha : a ∈ t₂ := by
          rcases List.mem_cons.mp ha2 with h | h
          · exact absurd h hne
          · exact h
        have hb : b ∈ t := by
          rcases List.mem_cons.mp hb1 with h | h
          · exact absurd h.symm hne
          · exact h
        have hle₁ : entryLE a b := List.rel_of_sorted_cons h₁ b hb
        have hle₂ : entryLE b a := List.rel_of_sorted_cons h₂ a ha
        have hkey : a.1 = b.1 := strLe_antisymm hle₁ hle₂
        have : a.1 ∈ t.map Prod.fst := hkey ▸ List.mem_map_of_mem Prod.fst hb
        exact (List.nodup_cons.mp hnd).1 this
      subst hab
      rw [ih hp.cons_inv h₁.of_cons h₂.of_cons (List.nodup_cons.mp hnd).2]

theorem sortEntries_eq_of_perm {es₁ es₂ : Entries} (hp : List.Perm es₁ es₂)
    (hnd : (es₁.map Prod.fst).Nodup) : sortEntries es₁ = sortEntries es₂ :=
  sorted_nodupkeys_eq
    ((sortEntries_perm es₁).trans (hp.trans (sortEntries_perm es₂).symm))
    (sortEntries_sorted es₁) (sortEntries_sorted es₂)
    (((sortEntries_perm es₁).map Prod.fst).nodup_iff.mpr hnd)

/-!  Concrete fixtures shared by the claims. -/

/-- The end-to-end scenario tree from the specification. -/
def exampleParams : Entries :=
  [("GeneralSettings",
    .dict [("SimulationType", .str "MonteCarlo"), ("NumberOfCycles", .int 10)]),
   ("Component",
    .list [.dict [("MoleculeName", .str "methane"), ("_", .str ""),
                  ("CreateNumberOfMolecules", .int 0)]])]

/-- A minimal well-formed tree: empty general settings, no components. -/
def paramsOkMin : Entries := [("GeneralSettings", .dict []), ("Component", .list [])]

/-- A well-formed tree with one extra root-level key. -/
def paramsExtra : Entries :=
  [("GeneralSettings", .dict []), ("Component", .list []), ("Extra", .int 5)]

/-- A valid input mapping whose settings node carries one unrecognized key. -/
def inputLeftoverSettings : List (String × Node) :=
  [("parameters", .parameterData paramsOkMin), ("code", .code "uuid-1"),
   ("settings", .parameterData [("foo", .int 1)])]

/-- A valid input mapping whose parameter tree has one extra root key. -/
def inputExtra : List (String × Node) :=
  [("parameters", .parameterData paramsExtra), ("code", .code "uuid-1")]

/-- An input mapping with one unrecognized role name. -/
def inputUnrecognized : List (String × Node) :=
  [("parameters", .parameterData []), ("code", .code "c"), ("mystery", .remoteData)]

/-- An input mapping with one auxiliary single-file input. -/
def inputWithFile : List (String × Node) :=
  [("parameters", .parameterData []), ("code", .code "c"),
   ("pseudo", .singlefileData "/tmp/a" "a.txt")]

/-!  Helper lemmas for the claims. -/

/-- A rendered line of any entry of a section appears among the lines of the
whole section. -/
theorem entriesLines_mem {es : Entries} {k : String} {v : Value} (h : (k, v) ∈ es)
    (i : Nat) {line : String} (hl : line ∈ (renderVal k i v).1) :
    line ∈ entriesLines i es := by
  induction es with
  | nil => cases h
  | cons p rest ih =>
    obtain ⟨k₂, v₂⟩ := p
    rw [entriesLines]
    rcases List.mem_cons.mp h with h | h
    · cases h
      exact List.mem_append_left _ hl
    · exact List.mem_append_right _ (ih h)

theorem renderSection_mem {es : Entries} {k : String} {v : Value} (h : (k, v) ∈ es)
    (i : Nat) {line : String} (hl : line ∈ (renderVal k i v).1) :
    line ∈ (renderSection es i).1 :=
  entriesLines_mem ((sortEntries_perm es).mem_iff.mpr h) i hl

theorem sortEntries_singleton (key : String) (v : Value) :
    sortEntries [(key, v)] = [(key, v)] := rfl

theorem renderSection_singleton (key : String) (v : Value) (i : Nat) :
    (renderSection [(key, v)] i).1 = (renderVal key i v).1 := by
  rw [renderSection]
  show entriesLines i (sortEntries [(key, v)]) = _
  rw [sortEntries_singleton, entriesLines, entriesLines]
  simp

theorem itemsLines_eq (key : String) (i : Nat) (items : List Value) :
    itemsLines key i items = (items.map fun it => (renderVal key i it).1).flatten := by
  induction items with
  | nil => rw [itemsLines]; simp
  | cons v vs ih => rw [itemsLines, ih]; simp

theorem prepareAfterVerify_error (pk : Nat) (u : String) (folder : Folder)
    (params : Entries) (cn : Node) (st : Entries) (lcl : List (String × String))
    (e : PrepError) (h : render params = .error e) :
    prepareAfterVerify pk u folder params cn st lcl =
      (folder.setFile "simulation.input" "", .error e) := by
  unfold prepareAfterVerify
  rw [h]

theorem prepareAfterVerify_ok (pk : Nat) (u : String) (folder : Folder)
    (params : Entries) (cn : Node) (st : Entries) (lcl : List (String × String))
    (text : String) (rest : Entries) (h : render params = .ok (text, rest)) :
    prepareAfterVerify pk u folder params cn st lcl =
      prepareWrite pk u (folder.setFile "simulation.input" "") text cn st lcl := by
  unfold prepareAfterVerify
  rw [h]

/-!  The claims. -/

/-- C1: on the parameter tree `{GeneralSettings: {SimulationType: "MonteCarlo",
NumberOfCycles: 10}, Component: [{MoleculeName: "methane", _: "",
CreateNumberOfMolecules: 0}]}`, `RaspaInput.render` returns exactly the
banner line followed by the general settings sorted lexicographically, the
component header, and the component body indented by exactly three spaces,
joined by single newlines with no trailing newline. -/
theorem spec_c1_render_example :
    render exampleParams = .ok
      (String.intercalate "\n"
        ["!!! Generated by AiiDA !!!", "NumberOfCycles  10", "SimulationType  MonteCarlo",
         "Component  MoleculeName methane", "   CreateNumberOfMolecules  0"],
       []) :=
  render_of_renderO 10 _ _ (by with_unfolding_all rfl)

/-- C2: the rendered text of a section depends only on which key-value pairs
it holds, not on their insertion order: two permutations of the same entries
with distinct keys render byte-identically, because `_render_section`
iterates in lexicographic key order. -/
theorem spec_c2_render_deterministic (i : Nat) (es₁ es₂ : Entries)
    (hp : List.Perm es₁ es₂) (hnd : (es₁.map Prod.fst).Nodup) :
    (renderSection es₁ i).1 = (renderSection es₂ i).1 := by
  rw [renderSection, renderSection, sortEntries_eq_of_perm hp hnd]

theorem spec_c2_witness :
    List.Perm [("b", Value.int 1), ("a", Value.str "x")]
      [("a", Value.str "x"), ("b", Value.int 1)] ∧
    (([("b", Value.int 1), ("a", Value.str "x")] : Entries).map Prod.fst).Nodup ∧
    (renderSection [("b", Value.int 1), ("a", Value.str "x")] 0).1 =
      (renderSection [("a", Value.str "x"), ("b", Value.int 1)] 0).1 :=
  ⟨List.Perm.swap _ _ _, by decide,
   spec_c2_render_deterministic 0 _ _ (List.Perm.swap _ _ _) (by decide)⟩

/-- C3 counterexample: with a valid parameter tree and a settings node
holding the unrecognized key `foo`, `_prepare_for_submission` raises the
leftover-settings `InputValidationError`, yet `simulation.input` has already
been written to the staging folder — refuting the claim that every
validation failure aborts before any file is written. -/
theorem spec_c3_counterexample :
    (prepareForSubmission 7 "u" ⟨[]⟩ inputLeftoverSettings).2 =
      .error (.inputValidationError
        "The following keys have been found in the settings input node 7, but were not understood: foo") ∧
    (prepareForSubmission 7 "u" ⟨[]⟩ inputLeftoverSettings).1.files =
      [("simulation.input", "!!! Generated by AiiDA !!!")] := by
  have hv : verifyInlinks inputLeftoverSettings =
      .ok (paramsOkMin, none, Node.code "uuid-1", [("foo", Value.int 1)], []) := by
    with_unfolding_all rfl
  have hr : render paramsOkMin = .ok ("!!! Generated by AiiDA !!!", []) :=
    render_of_renderO 10 _ _ (by with_unfolding_all rfl)
  simp only [prepareForSubmission, hv]
  rw [prepareAfterVerify_ok _ _ _ _ _ _ _ _ _ hr]
  constructor <;> with_unfolding_all rfl

/-- C3 amended: errors raised by `_verify_inlinks` abort preparation before
`simulation.input` is touched, and a failure inside `render()` leaves only
the empty file created by opening it for writing; the leftover-settings
error, by contrast (see the counterexample), is raised only after
`simulation.input` has been fully written. -/
theorem spec_c3_write_ordering :
    (∀ pk u folder inputdict e, verifyInlinks inputdict = .error e →
      prepareForSubmission pk u folder inputdict = (folder, .error e)) ∧
    (∀ pk u folder inputdict params sn cn st lcl e,
      verifyInlinks inputdict = .ok (params, sn, cn, st, lcl) →
      render params = .error e →
      prepareForSubmission pk u folder inputdict =
        (folder.setFile "simulation.input" "", .error e)) := by
  constructor
  · intro pk u folder inputdict e hv
    simp only [prepareForSubmission, hv]
  · intro pk u folder inputdict params sn cn st lcl e hv hr
    simp only [prepareForSubmission, hv]
    exact prepareAfterVerify_error _ _ _ _ _ _ _ _ hr

theorem spec_c3_witness :
    prepareForSubmission 1 "u" ⟨[]⟩ [] =
      (⟨[]⟩, .error (.inputValidationError "No parameters specified")) ∧
    prepareForSubmission 1 "u" ⟨[]⟩
        [("parameters", Node.parameterData []), ("code", Node.code "c")] =
      (Folder.setFile ⟨[]⟩ "simulation.input" "", .error (.keyError "GeneralSettings")) :=
  ⟨spec_c3_write_ordering.1 1 "u" ⟨[]⟩ [] _ (by with_unfolding_all rfl),
   spec_c3_write_ordering.2 1 "u" ⟨[]⟩ _ [] none (Node.code "c") [] [] _
     (by with_unfolding_all rfl) (by with_unfolding_all rfl)⟩

/-- C4 counterexample: a parameter tree carrying the extra root key `Extra`
next to the two mandatory sections is accepted: preparation succeeds (no
validation error is raised anywhere) and the written `simulation.input`
simply omits the key — refuting the claim that an extra root key is a hard
pre-submission error. -/
theorem spec_c4_counterexample :
    exceptIsOk (prepareForSubmission 7 "u" ⟨[]⟩ inputExtra).2 = true ∧
    (prepareForSubmission 7 "u" ⟨[]⟩ inputExtra).1.files =
      [("simulation.input", "!!! Generated by AiiDA !!!")] := by
  have hv : verifyInlinks inputExtra =
      .ok (paramsExtra, none, Node.code "uuid-1", [], []) := by
    with_unfolding_all rfl
  have hr : render paramsExtra =
      .ok ("!!! Generated by AiiDA !!!", [("Extra", Value.int 5)]) :=
    render_of_renderO 10 _ _ (by with_unfolding_all rfl)
  simp only [prepareForSubmission, hv]
  rw [prepareAfterVerify_ok _ _ _ _ _ _ _ _ _ hr]
  constructor <;> with_unfolding_all rfl

/-- C4 amended: extra root-level keys are silently skipped, not rejected:
whenever the two mandatory sections are present, `render` succeeds, consumes
only `GeneralSettings` and `Component`, and leaves every other root key
unrendered in the leftover mapping without raising any error. -/
theorem spec_c4_extra_keys_ignored (params ges : Entries) (comp : Value)
    (hgs : getOpt "GeneralSettings" params = some (.dict ges))
    (hc : getOpt "Component" (eraseKey "GeneralSettings" params) = some comp) :
    exceptIsOk (render params) = true ∧
    render params = .ok
      (String.intercalate "\n" (["!!! Generated by AiiDA !!!"] ++
        (renderSection ges 0).1 ++ (renderSection [("Component", comp)] 0).1),
       eraseKey "Component" (eraseKey "GeneralSettings" params)) := by
  have h : render params = .ok
      (String.intercalate "\n" (["!!! Generated by AiiDA !!!"] ++
        (renderSection ges 0).1 ++ (renderSection [("Component", comp)] 0).1),
       eraseKey "Component" (eraseKey "GeneralSettings" params)) := by
    simp only [render, hgs, hc]
  exact ⟨by rw [h]; rfl, h⟩

theorem spec_c4_witness :
    getOpt "GeneralSettings" paramsExtra = some (Value.dict []) ∧
    getOpt "Component" (eraseKey "GeneralSettings" paramsExtra) = some (Value.list []) ∧
    exceptIsOk (render paramsExtra) = true := by
  have h₁ : getOpt "GeneralSettings" paramsExtra = some (Value.dict []) := by
    with_unfolding_all rfl
  have h₂ : getOpt "Component" (eraseKey "GeneralSettings" paramsExtra) =
      some (Value.list []) := by
    with_unfolding_all rfl
  exact ⟨h₁, h₂, (spec_c4_extra_keys_ignored paramsExtra [] (Value.list []) h₁ h₂).1⟩

/-- C5 counterexample: on the empty tree `render` raises a bare `KeyError`
for `GeneralSettings` — a lookup failure that is not an
`InputValidationError`, refuting the claim that the failure is surfaced as
an input-validation error. -/
theorem spec_c5_counterexample :
    render [] = .error (.keyError "GeneralSettings") ∧
    PrepError.isInputValidation (.keyError "GeneralSettings") = false :=
  ⟨by with_unfolding_all rfl, rfl⟩

/-- C5 amended: a tree missing `GeneralSettings`, or missing `Component`,
makes `render` fail with a `KeyError` carrying the offending section name —
no silent empty or partial render is returned — but the exception is a plain
lookup `KeyError`, not an `InputValidationError`. -/
theorem spec_c5_missing_sections (params : Entries) :
    (getOpt "GeneralSettings" params = none →
      render params = .error (.keyError "GeneralSettings")) ∧
    (∀ ges, getOpt "GeneralSettings" params = some (.dict ges) →
      getOpt "Component" params = none →
      render params = .error (.keyError "Component")) := by
  constructor
  · intro h
    simp only [render, h]
  · intro ges hgs hc
    have hc₂ : getOpt "Component" (eraseKey "GeneralSettings" params) = none := by
      rw [getOpt_eraseKey_of_ne (by decide) params]
      exact hc
    simp only [render, hgs, hc₂]

theorem spec_c5_witness :
    render [] = .error (.keyError "GeneralSettings") ∧
    render [("GeneralSettings", Value.dict [])] = .error (.keyError "Component") :=
  ⟨(spec_c5_missing_sections []).1 rfl,
   (spec_c5_missing_sections [("GeneralSettings", Value.dict [])]).2 [] rfl rfl⟩

/-- C6: a boolean value renders as the line `<indent>KEY  .true.` or
`<indent>KEY  .false.` — exactly these lower-case dot-delimited tokens with
two spaces after the key — and that exact line appears in the output of any
section containing the entry. -/
theorem spec_c6_bool_literals (key : String) (b : Bool) (indent : Nat) (es : Entries)
    (hmem : (key, Value.bool b) ∈ es) :
    (renderVal key indent (Value.bool b)).1 =
      [indentStr indent ++ key ++ "  " ++ (if b then ".true." else ".false.")] ∧
    (indentStr indent ++ key ++ "  " ++ (if b then ".true." else ".false.")) ∈
      (renderSection es indent).1 := by
  constructor
  · rw [renderVal]
  · exact renderSection_mem hmem indent (by rw [renderVal]; exact List.mem_singleton_self _)

theorem spec_c6_witness :
    (("Flag", Value.bool true) ∈ ([("Flag", Value.bool true), ("X", Value.bool false)] : Entries)) ∧
    (renderVal "Flag" 3 (Value.bool true)).1 = ["   Flag  .true."] ∧
    "   Flag  .true." ∈ (renderSection [("Flag", Value.bool true), ("X", Value.bool false)] 3).1 := by
  have h := spec_c6_bool_literals "Flag" true 3
    [("Flag", Value.bool true), ("X", Value.bool false)] (by simp)
  exact ⟨by simp, h.1.trans (by with_unfolding_all rfl),
    (by with_unfolding_all rfl : (("   Flag  .true." : String) =
      indentStr 3 ++ "Flag" ++ "  " ++ (if true then ".true." else ".false."))) ▸ h.2⟩

/-- C7: a list value under a key renders as the concatenation of renders of
the one-entry sections `{key: item}` at the same indentation — sibling
blocks, never nested; in particular a two-entry `Component` list renders as
the two component blocks side by side. -/
theorem spec_c7_list_flattening :
    (∀ key indent (items : List Value),
      (renderVal key indent (Value.list items)).1 =
        (items.map fun it => (renderSection [(key, it)] indent).1).flatten) ∧
    (∀ (d₁ d₂ : Entries) (indent : Nat),
      (renderVal "Component" indent (Value.list [Value.dict d₁, Value.dict d₂])).1 =
        (renderVal "Component" indent (Value.dict d₁)).1 ++
        (renderVal "Component" indent (Value.dict d₂)).1) := by
  have hmain : ∀ key indent (items : List Value),
      (renderVal key indent (Value.list items)).1 =
        (items.map fun it => (renderSection [(key, it)] indent).1).flatten := by
    intro key indent items
    rw [renderVal]
    show itemsLines key indent items = _
    rw [itemsLines_eq]
    simp only [renderSection_singleton]
  refine ⟨hmain, fun d₁ d₂ indent => ?_⟩
  rw [hmain]
  simp [renderSection_singleton]

/-- C8: after the `parameters`, `structure`, `code` and `settings` roles are
extracted and every single-file input reclassified, a non-empty remainder
makes `_verify_inlinks` fail with one `InputValidationError` listing all the
remaining role names together, and an empty remainder raises no such
error. -/
theorem spec_c8_unrecognized_batched (inputdict : List (String × Node)) (ps : Entries)
    (cn : Node)
    (hp : getOpt "parameters" inputdict = some (.parameterData ps))
    (hs : getOpt "structure" (eraseKey "parameters" inputdict) = none ∨
          getOpt "structure" (eraseKey "parameters" inputdict) = some .structureData)
    (hc : getOpt "code" (eraseKey "structure" (eraseKey "parameters" inputdict)) = some cn)
    (hset : getOpt "settings"
        (eraseKey "code" (eraseKey "structure" (eraseKey "parameters" inputdict))) = none ∨
      ∃ st, getOpt "settings"
        (eraseKey "code" (eraseKey "structure" (eraseKey "parameters" inputdict))) =
          some (.parameterData st)) :
    ((eraseKey "settings" (eraseKey "code" (eraseKey "structure"
        (eraseKey "parameters" inputdict)))).filter (fun p => !isSinglefile p.2) = [] →
      exceptIsOk (verifyInlinks inputdict) = true) ∧
    (∀ leftover,
      leftover = (eraseKey "settings" (eraseKey "code" (eraseKey "structure"
        (eraseKey "parameters" inputdict)))).filter (fun p => !isSinglefile p.2) →
      leftover ≠ [] →
      verifyInlinks inputdict = .error (.inputValidationError
        ("unrecognized input nodes: " ++ pyKeysStr (leftover.map Prod.fst)))) := by
  constructor
  · intro hempty
    rcases hset with hset | ⟨st, hset⟩ <;> rcases hs with hs | hs <;>
      simp [verifyInlinks, hp, hs, hc, hset, hempty, exceptIsOk, pure, Except.pure,
        throw, throwThe, MonadExceptOf.throw, bind, Except.bind]
  · intro leftover hdef hne
    rcases hset with hset | ⟨st, hset⟩ <;> rcases hs with hs | hs <;>
      simp [verifyInlinks, hp, hs, hc, hset, ← hdef, hne, exceptIsOk, pure, Except.pure,
        throw, throwThe, MonadExceptOf.throw, bind, Except.bind]

theorem spec_c8_witness :
    getOpt "parameters" inputUnrecognized = some (Node.parameterData []) ∧
    verifyInlinks inputUnrecognized = .error (.inputValidationError
      "unrecognized input nodes: [\x27mystery\x27]") ∧
    exceptIsOk (verifyInlinks inputWithFile) = true := by
  have h₁ : getOpt "parameters" inputUnrecognized = some (Node.parameterData []) := by
    with_unfolding_all rfl
  have h₂ := (spec_c8_unrecognized_batched inputUnrecognized [] (Node.code "c") h₁
      (Or.inl (by with_unfolding_all rfl)) (by with_unfolding_all rfl)
      (Or.inl (by with_unfolding_all rfl))).2
    [("mystery", Node.remoteData)] (by with_unfolding_all rfl) (by simp)
  have h₃ := (spec_c8_unrecognized_batched inputWithFile [] (Node.code "c")
      (by with_unfolding_all rfl)
      (Or.inl (by with_unfolding_all rfl)) (by with_unfolding_all rfl)
      (Or.inl (by with_unfolding_all rfl))).1 (by with_unfolding_all rfl)
  refine ⟨h₁, ?_, h₃⟩
  rw [h₂]
  with_unfolding_all rfl

/-- C9: the destructive mutation of `render` is exactly: the two keys
`GeneralSettings` and `Component` disappear from the top-level mapping (the
leftover mapping returned on success is the input with exactly those two
entries erased), and inside every traversed value each rendered Section
loses exactly the reserved keys `_` and `MoleculeName` while every other key
survives in place (key lists are preserved). -/
theorem spec_c9_mutation_frame :
    (∀ params text rest, render params = .ok (text, rest) →
      rest = eraseKey "Component" (eraseKey "GeneralSettings" params)) ∧
    (∀ k i v, (renderVal k i v).2 = removeReservedVal v) ∧
    (∀ i es, entriesMut i es = removeReservedEntries es) ∧
    (∀ es, (removeReservedEntries es).map Prod.fst = es.map Prod.fst) := by
  refine ⟨?_, ?_, ?_, removeReservedEntries_keys⟩
  · intro params text rest h
    cases hgs : getOpt "GeneralSettings" params with
    | none => simp [render, hgs] at h
    | some gs =>
      cases gs with
      | dict ges =>
        cases hc : getOpt "Component" (eraseKey "GeneralSettings" params) with
        | none => simp [render, hgs, hc] at h
        | some comp =>
          simp only [render, hgs, hc, Except.ok.injEq, Prod.mk.injEq] at h
          exact h.2.symm
      | int n => simp [render, hgs] at h
      | str t => simp [render, hgs] at h
      | bool b => simp [render, hgs] at h
      | list items => simp [render, hgs] at h
  · intro k i v
    exact (renderMut_spec (sizeOf v)).1 v le_rfl k i
  · intro i es
    exact (renderMut_spec (sizeOf es)).2.1 es le_rfl i

theorem spec_c9_witness :
    render paramsOkMin = .ok ("!!! Generated by AiiDA !!!", []) ∧
    ([] : Entries) = eraseKey "Component" (eraseKey "GeneralSettings" paramsOkMin) ∧
    (renderVal "k" 0 (Value.dict [("_", Value.str "t"), ("a", Value.int 1)])).2 =
      removeReservedVal (Value.dict [("_", Value.str "t"), ("a", Value.int 1)]) := by
  have hr : render paramsOkMin = .ok ("!!! Generated by AiiDA !!!", []) :=
    render_of_renderO 10 _ _ (by with_unfolding_all rfl)
  exact ⟨hr, spec_c9_mutation_frame.1 paramsOkMin _ _ hr,
    spec_c9_mutation_frame.2.1 "k" 0 _⟩

/-- C10: the header line emitted for a nested Section carries no leading
indentation — it is the same for every indent and starts directly with the
key — while boolean and scalar lines are the only ones prefixed with the
indent, and a Section body is rendered three columns deeper than its
context. -/
theorem spec_c10_header_unindented :
    (∀ key i j (es : Entries),
      ((renderVal key i (Value.dict es)).1).head? = ((renderVal key j (Value.dict es)).1).head?) ∧
    (∀ key i (es : Entries),
      ((renderVal key i (Value.dict es)).1).head? = some
        (key ++ " " ++ (popDefault "_" (Value.str "") es).1.pyStr ++ " " ++ "MoleculeName" ++
         " " ++ (popDefault "MoleculeName" (Value.str "") (popDefault "_" (Value.str "") es).2).1.pyStr)) ∧
    (∀ key i (es : Entries),
      ((renderVal key i (Value.dict es)).1).tail =
        entriesLines (i + 3) (sortEntries (eraseKey "MoleculeName" (eraseKey "_" es)))) ∧
    (∀ key i n, (renderVal key i (Value.int n)).1 =
      [indentStr i ++ key ++ "  " ++ (Value.int n).pyStr]) ∧
    (∀ key i s, (renderVal key i (Value.str s)).1 = [indentStr i ++ key ++ "  " ++ s]) ∧
    (∀ key i b, (renderVal key i (Value.bool b)).1 =
      [indentStr i ++ key ++ "  " ++ (if b then ".true." else ".false.")]) := by
  refine ⟨fun key i j es => ?_, fun key i es => ?_, fun key i es => ?_,
          fun key i n => ?_, fun key i s => ?_, fun key i b => ?_⟩
  · rw [renderVal, renderVal]
    rfl
  · rw [renderVal]
    rfl
  · rw [renderVal]
    simp [popDefault_snd]
  · rw [renderVal]
  · rw [renderVal]
    simp [Value.pyStr]
  · rw [renderVal]

end AiidaRaspa
